import Mathlib

/-!
Verification of the META-V2V relay / collision-monitoring core.

This file gives a shallow embedding of the tick-level behaviour of the
message brokers (`src/broker/__init__.py`, `radius.py`, `delay.py`,
`latency.py`, `noise.py`, `intermittence.py`, `factory.py`), of the
collision monitor (`src/scenario/detect.py`) and of the routing trigger
(`src/apollo/apollo_runner.py`, `src/scenario/scenario_runner.py`),
and proves the specified properties about them.

Geometry helpers (`localization_to_obstacle`, `obstacle_to_polygon`,
`generate_adc_polygon`, `to_Point3D` from `apollo/utils.py`) and the
shapely polygon distance are not part of the sources under `src/`;
they are modelled from the spec as explicit function parameters
(`genPoly`, `polyDist`), as noted on each definition.

Machine floats are modelled by exact rationals `ℚ`; the float value
`+inf` stored by the collision monitor and the (possibly infinite)
radius parameter are modelled by `WithTop ℚ`.
-/

namespace MetaV2V

/-- `modules.common.proto.geometry_pb2.Point3D`. -/
structure Point3D where
  x : ℚ
  y : ℚ
  z : ℚ
deriving DecidableEq, Repr

/-- The part of `modules.localization.proto.Pose` read by the brokers. -/
structure Pose where
  position : Point3D
  heading : ℚ
  linear_velocity : Point3D
  linear_acceleration : Point3D
deriving DecidableEq, Repr

/-- The part of a `LocalizationEstimate` read by the brokers:
`header.module_name`, `header.timestamp_sec` and the pose. -/
structure Loc where
  module_name : String
  timestamp_sec : ℚ
  pose : Pose
deriving DecidableEq, Repr

/-- The part of an `ApolloRunner` the relay layer reads: its numeric id
`nid` and its last received localization (`None` before the first
localization callback). -/
structure Runner where
  nid : ℕ
  localization : Option Loc
deriving DecidableEq, Repr

/-- The fields of a `PerceptionObstacle` produced by the brokers
(`id`, `position`, `theta`, `velocity`, `acceleration`,
`polygon_point`, `timestamp`); the constant size/type fields are
omitted as they are never branched on. -/
structure PerceptionObstacle where
  id : ℕ
  position : Point3D
  theta : ℚ
  velocity : Point3D
  acceleration : Point3D
  polygon_point : List Point3D
  timestamp : ℚ
deriving DecidableEq, Repr

/-! ### Python `dict` as an insertion-ordered association list -/

/-- `k in m` for a Python dict modelled as an association list. -/
def dmem (m : List (ℕ × α)) (k : ℕ) : Bool :=
  m.any (fun p => p.1 == k)

/-- `m[k]` (as an `Option`) for a Python dict modelled as an association
list: the unique binding of `k`, if any. -/
def dget? (m : List (ℕ × α)) (k : ℕ) : Option α :=
  (m.find? (fun p => p.1 == k)).map Prod.snd

/-- `m[k] = v` for a Python dict: overwrite in place if the key exists
(keeping its position), else append the new binding. -/
def dinsert (m : List (ℕ × α)) (k : ℕ) (v : α) : List (ℕ × α) :=
  if dmem m k then m.map (fun p => if p.1 == k then (k, v) else p)
  else m ++ [(k, v)]

/-! ### Collecting authoritative localizations (`_spin`, first loop)

Every broker's `_spin` starts with
`locations = dict(); for runner in self.runners: loc = runner.localization;
if loc and loc.header.module_name == 'SimControl': locations[runner.nid] = loc`.
-/

/-- The localization of a runner if it is authoritative
(present and tagged `module_name == 'SimControl'`), else `none`. -/
def authLoc (r : Runner) : Option Loc :=
  match r.localization with
  | none => none
  | some l => if l.module_name = "SimControl" then some l else none

/-- `locations` dict built by the first loop of every broker `_spin`,
starting from accumulator `m`. -/
def locationsFrom (m : List (ℕ × Loc)) (runners : List Runner) :
    List (ℕ × Loc) :=
  runners.foldl
    (fun acc r =>
      match authLoc r with
      | some l => dinsert acc r.nid l
      | none => acc) m

/-- The `locations` dict of one tick: one binding per runner whose
localization is authoritative this tick. -/
def locations (runners : List Runner) : List (ℕ × Loc) :=
  locationsFrom [] runners

/-- Canonical form of `locations` when runner ids are distinct. -/
def locationsSimple (runners : List Runner) : List (ℕ × Loc) :=
  runners.filterMap (fun r => (authLoc r).map (fun l => (r.nid, l)))

/-! ### Obstacle construction -/

/-- Modelled from the spec: `to_Point3D` lives in `apollo/utils.py`,
which is not under `src/`; per its use it preprocesses a protobuf
point, replacing `NaN` components with `0.0`.  Over exact rationals
there is no `NaN`, so it is the identity on the three components. -/
def to_Point3D (p : Point3D) : Point3D := p

/-- Modelled from the spec: `localization_to_obstacle` lives in
`apollo/utils.py`, which is not under `src/`.  Per spec §3 an Obstacle
carries the agent id, position, heading, velocity, acceleration, a
footprint polygon derived from the configured vehicle geometry at the
given position and heading, and the timestamp.  `genPoly` abstracts
the footprint-polygon generator `generate_adc_polygon`. -/
def localization_to_obstacle (genPoly : Point3D → ℚ → List Point3D)
    (i : ℕ) (data : Loc) : PerceptionObstacle :=
  { id := i
    position := to_Point3D data.pose.position
    theta := data.pose.heading
    velocity := to_Point3D data.pose.linear_velocity
    acceleration := to_Point3D data.pose.linear_acceleration
    polygon_point := genPoly (to_Point3D data.pose.position) data.pose.heading
    timestamp := data.timestamp_sec }

/-- The `obs` dict of one tick: `for k in locations:
obs[k] = localization_to_obstacle(k, locations[k])` (same keys, same
order as `locations`). -/
def obsMap (genPoly : Point3D → ℚ → List Point3D) (runners : List Runner) :
    List (ℕ × PerceptionObstacle) :=
  (locations runners).map
    (fun p => (p.1, localization_to_obstacle genPoly p.1 p.2))

/-! ### Identity broker (`MessageBroker._spin`) -/

/-- Agent part of the snapshot published by `MessageBroker._spin` to the
receiver with id `recv`: `[obs[x] for x in obs if x != runner.nid]`. -/
def identityAgents (obs : List (ℕ × PerceptionObstacle)) (recv : ℕ) :
    List PerceptionObstacle :=
  (obs.filter (fun p => p.1 ≠ recv)).map Prod.snd

/-- Full snapshot published by `MessageBroker._spin` to receiver `recv`:
the agent obstacles plus the pedestrian obstacles `pds` of this tick. -/
def identitySnapshot (genPoly : Point3D → ℚ → List Point3D)
    (runners : List Runner) (pds : List PerceptionObstacle) (recv : ℕ) :
    List PerceptionObstacle :=
  identityAgents (obsMap genPoly runners) recv ++ pds

/-- Snapshot agent content as the spec words it (§8): one obstacle per
other authoritative agent, in runner order.  Used as the reference
form the broker outputs are compared against. -/
def specSnapshotAgents (genPoly : Point3D → ℚ → List Point3D)
    (runners : List Runner) (recv : ℕ) : List PerceptionObstacle :=
  runners.filterMap (fun x =>
    if x.nid = recv then none
    else (authLoc x).map (fun l => localization_to_obstacle genPoly x.nid l))

/-! ### Concrete demonstration data (used by witnesses) -/

/-- A concrete authoritative localization. -/
def demoLoc : Loc :=
  { module_name := "SimControl"
    timestamp_sec := 0
    pose :=
      { position := ⟨0, 0, 0⟩
        heading := 0
        linear_velocity := ⟨0, 0, 0⟩
        linear_acceleration := ⟨0, 0, 0⟩ } }

/-- A second authoritative localization at a different position. -/
def demoLoc2 : Loc :=
  { module_name := "SimControl"
    timestamp_sec := 0
    pose :=
      { position := ⟨50, 0, 0⟩
        heading := 0
        linear_velocity := ⟨-5, 0, 0⟩
        linear_acceleration := ⟨0, 0, 0⟩ } }

/-- Concrete runner with id 1. -/
def demoR1 : Runner := ⟨1, some demoLoc⟩

/-- Concrete runner with id 2. -/
def demoR2 : Runner := ⟨2, some demoLoc2⟩

/-- Concrete two-agent cohort. -/
def demoRunners : List Runner := [demoR1, demoR2]

/-- Trivial concrete footprint-polygon generator. -/
def demoPoly : Point3D → ℚ → List Point3D := fun p _ => [p]

/-! ### Radius broker (`RadiusBroker._spin`) -/

/-- Agent part of the snapshot published by `RadiusBroker._spin` to
receiver `recv`: iterate the keys of `obs_poly` (= the keys of `obs`),
skip the receiver itself, and keep agent `i` only when the receiver's
id is in `obs_poly` and the polygon distance is `≤ radius`.
`polyDist` abstracts `obstacle_to_polygon` (from `apollo/utils.py`, not
under `src/`) composed with the shapely surface distance; the radius
lives in `WithTop ℚ` so that the float `inf` is representable. -/
def radiusAgents (polyDist : PerceptionObstacle → PerceptionObstacle → ℚ)
    (radius : WithTop ℚ) (obs : List (ℕ × PerceptionObstacle)) (recv : ℕ) :
    List PerceptionObstacle :=
  obs.filterMap (fun p =>
    if p.1 = recv then none
    else
      match dget? obs recv with
      | none => none
      | some oR =>
        if (polyDist oR p.2 : WithTop ℚ) ≤ radius then some p.2 else none)

/-- Full snapshot published by `RadiusBroker._spin` to receiver `recv`:
the filtered agent obstacles followed by this tick's pedestrians. -/
def radiusSnapshot (polyDist : PerceptionObstacle → PerceptionObstacle → ℚ)
    (genPoly : Point3D → ℚ → List Point3D) (radius : WithTop ℚ)
    (runners : List Runner) (pds : List PerceptionObstacle) (recv : ℕ) :
    List PerceptionObstacle :=
  radiusAgents polyDist radius (obsMap genPoly runners) recv ++ pds

/-- Concrete zero distance function (used by witnesses). -/
def demoDist : PerceptionObstacle → PerceptionObstacle → ℚ := fun _ _ => 0

/-- A concrete pedestrian obstacle (used by witnesses). -/
def demoObs : PerceptionObstacle :=
  { id := 100
    position := ⟨3, 4, 0⟩
    theta := 0
    velocity := ⟨0, 0, 0⟩
    acceleration := ⟨0, 0, 0⟩
    polygon_point := []
    timestamp := 0 }

/-! ### Delay broker (`DelayBroker._spin`) and latency broker snapshot
content (`LatencyBroker._spin`)

Both collect, per receiver, `for i in obs_poly: if i == runner.nid:
continue; if runner.nid in obs_poly and i in obs_poly:
perception_obs.append(obs[i])` — the same inclusion test as the
radius broker but with no distance condition. -/

/-- Agent part of the per-receiver message built by `DelayBroker._spin`. -/
def delayAgents (obs : List (ℕ × PerceptionObstacle)) (recv : ℕ) :
    List PerceptionObstacle :=
  obs.filterMap (fun p =>
    if p.1 = recv then none
    else if dmem obs recv then some p.2 else none)

/-- Per-receiver message content collected by `DelayBroker._spin`
(published for all receivers after the shared `time.sleep(self.delay)`). -/
def delaySnapshot (genPoly : Point3D → ℚ → List Point3D)
    (runners : List Runner) (pds : List PerceptionObstacle) (recv : ℕ) :
    List PerceptionObstacle :=
  delayAgents (obsMap genPoly runners) recv ++ pds

/-- Agent part of the per-receiver message enqueued by
`LatencyBroker._spin` (same collection code as the delay broker). -/
def latencyAgents (obs : List (ℕ × PerceptionObstacle)) (recv : ℕ) :
    List PerceptionObstacle :=
  obs.filterMap (fun p =>
    if p.1 = recv then none
    else if dmem obs recv then some p.2 else none)

/-- Per-receiver message content enqueued by `LatencyBroker._spin`. -/
def latencySnapshot (genPoly : Point3D → ℚ → List Point3D)
    (runners : List Runner) (pds : List PerceptionObstacle) (recv : ℕ) :
    List PerceptionObstacle :=
  latencyAgents (obsMap genPoly runners) recv ++ pds

/-! ### Noise broker (`NoiseBroker`) -/

/-- `random.gauss(mu, sigma)` modelled with an explicit standard-normal
draw `z`: the Python library returns `mu + sigma * z`. -/
def gauss (mu sigma z : ℚ) : ℚ := mu + sigma * z

/-- `NoiseBroker.gaussian_noise`: `value + scale * random.gauss(0.0, std_dev)`. -/
def gaussian_noise (value std_dev : ℚ) (scale : ℚ) (z : ℚ) : ℚ :=
  value + scale * gauss 0 std_dev z

/-- `NoiseBroker.noise_Point3D`: noise x and y with independent draws,
pass z through. -/
def noise_Point3D (data : Point3D) (std_dev : ℚ) (scale : ℚ)
    (z1 z2 : ℚ) : Point3D :=
  { x := gaussian_noise data.x std_dev scale z1
    y := gaussian_noise data.y std_dev scale z2
    z := data.z }

/-- `NoiseBroker.noise_localization_to_obstacle`: perturb position with
`sigma1`, heading with `sigma2`, velocity with `sigma3`, acceleration
with `sigma4` (all at the default `scale = 1.0`); recompute the
footprint polygon from the noised position and heading.  `z` is the
stream of standard-normal draws of this call, consumed in program
order (position x, y; heading; velocity x, y; acceleration x, y). -/
def noise_localization_to_obstacle (genPoly : Point3D → ℚ → List Point3D)
    (sigma1 sigma2 sigma3 sigma4 : ℚ) (z : ℕ → ℚ) (i : ℕ)
    (data : Loc) : PerceptionObstacle :=
  let position := to_Point3D data.pose.position
  let velocity := to_Point3D data.pose.linear_velocity
  let acceleration := to_Point3D data.pose.linear_acceleration
  let position_noise := noise_Point3D position sigma1 1 (z 0) (z 1)
  let heading_noise := gaussian_noise data.pose.heading sigma2 1 (z 2)
  let velocity_noise := noise_Point3D velocity sigma3 1 (z 3) (z 4)
  let acceleration_noise := noise_Point3D acceleration sigma4 1 (z 5) (z 6)
  { id := i
    position := position_noise
    theta := heading_noise
    velocity := velocity_noise
    acceleration := acceleration_noise
    polygon_point := genPoly position_noise heading_noise
    timestamp := data.timestamp_sec }

/-- The noised `obs` dict of one `NoiseBroker._spin` tick; `z k` is the
draw stream used for agent `k`. -/
def noiseObsMap (genPoly : Point3D → ℚ → List Point3D)
    (sigma1 sigma2 sigma3 sigma4 : ℚ) (z : ℕ → ℕ → ℚ)
    (runners : List Runner) : List (ℕ × PerceptionObstacle) :=
  (locations runners).map (fun p =>
    (p.1, noise_localization_to_obstacle genPoly sigma1 sigma2 sigma3 sigma4
      (z p.1) p.1 p.2))

/-- Full snapshot published by `NoiseBroker._spin` to receiver `recv`:
same publish loop as the identity broker, over the noised obstacles. -/
def noiseSnapshot (genPoly : Point3D → ℚ → List Point3D)
    (sigma1 sigma2 sigma3 sigma4 : ℚ) (z : ℕ → ℕ → ℚ)
    (runners : List Runner) (pds : List PerceptionObstacle) (recv : ℕ) :
    List PerceptionObstacle :=
  identityAgents (noiseObsMap genPoly sigma1 sigma2 sigma3 sigma4 z runners)
    recv ++ pds

/-! ### Broker factory (`src/broker/factory.py`) -/

/-- The brokers `BrokerFactory.createbk` can construct, with the
constructor arguments it passes (`MessageBroker(runners)`,
`RadiusBroker(runners, param)`, `LatencyBroker(runners, param)`,
`NoiseBroker(runners, param, 0, 0, 0)`,
`IntermittenceBroker(runners, param)`); the runner list is common to
all and omitted here. -/
inductive Broker where
  | message : Broker
  | radius : ℚ → Broker
  | latency : ℚ → Broker
  | noise : ℚ → ℚ → ℚ → ℚ → Broker
  | intermittence : ℚ → Broker
deriving DecidableEq, Repr

/-- The mode strings `BrokerFactory.set_mode` accepts. -/
def validModes : List String :=
  ["MessageBroker", "RadiusBroker", "LatencyBroker", "NoiseBroker",
   "IntermittenceBroker"]

/-- `BrokerFactory.set_mode`: stores the mode if it is one of the five
accepted strings, else raises `ValueError("Unexpected mode in
BrokerFactory")`. -/
def set_mode (mode : String) : Except String String :=
  if mode ∈ validModes then Except.ok mode
  else Except.error "Unexpected mode in BrokerFactory"

/-- `BrokerFactory.set_param`: stores its single numeric parameter
unconditionally — there is no range validation. -/
def set_param (param : ℚ) : ℚ := param

/-- `BrokerFactory.createbk`: dispatches on the stored mode, passing
the stored parameter to the constructor; for `NoiseBroker` the stored
parameter becomes `sigma1` and the literals `0, 0, 0` the other three
sigmas; any other stored mode (including `None`) raises
`ValueError`. -/
def createbk (mode : Option String) (param : ℚ) : Except String Broker :=
  match mode with
  | some "MessageBroker" => Except.ok Broker.message
  | some "RadiusBroker" => Except.ok (Broker.radius param)
  | some "LatencyBroker" => Except.ok (Broker.latency param)
  | some "NoiseBroker" => Except.ok (Broker.noise param 0 0 0)
  | some "IntermittenceBroker" => Except.ok (Broker.intermittence param)
  | _ => Except.error "Unexpected mode in BrokerFactory"

/-! ### Collision detector (`src/scenario/detect.py`) -/

/-- `CollisionDetector.__init__`: `min_distances[(i, j)] = float('inf')`
for all index pairs `0 ≤ i < j < n` (`n` = number of runners); the
dict is modelled as a map from index pairs to an optional stored value
(`none` = key absent, `some ⊤` = `float('inf')`). -/
def initMinDistances (n : ℕ) : ℕ × ℕ → Option (WithTop ℚ) :=
  fun p => if p.1 < p.2 ∧ p.2 < n then some ⊤ else none

/-- `CollisionDetector.get_polygon_dist`: for each index pair
`i < j < n`, if both runners' ids are in this tick's `obs_poly` dict
(built exactly as in the brokers), the polygon distance between their
obstacles; otherwise the pair is absent from `poly_dist`. -/
def get_polygon_dist
    (polyDist : PerceptionObstacle → PerceptionObstacle → ℚ)
    (genPoly : Point3D → ℚ → List Point3D) (runners : List Runner) :
    ℕ × ℕ → Option ℚ :=
  fun p =>
    if p.1 < p.2 ∧ p.2 < runners.length then
      match runners[p.1]?, runners[p.2]? with
      | some ri, some rj =>
        match dget? (obsMap genPoly runners) ri.nid,
              dget? (obsMap genPoly runners) rj.nid with
        | some oi, some oj => some (polyDist oi oj)
        | _, _ => none
      | _, _ => none
    else none

/-- One `CollisionDetector.detect` call: for every pair in `cur_dist`,
set `min_distances[pair]` to the new distance if the key is absent,
else to `min(stored, new)`; pairs absent from `cur_dist` are left
untouched. -/
def detectStep (md : ℕ × ℕ → Option (WithTop ℚ))
    (cur : ℕ × ℕ → Option ℚ) : ℕ × ℕ → Option (WithTop ℚ) :=
  fun p =>
    match cur p with
    | none => md p
    | some d =>
      match md p with
      | none => some (d : WithTop ℚ)
      | some m => some (min m (d : WithTop ℚ))

/-- A whole trial's detector state: fold `detect` over the per-tick
distance maps, starting from the `__init__` state. -/
def runDetector (n : ℕ) (ticks : List (ℕ × ℕ → Option ℚ)) :
    ℕ × ℕ → Option (WithTop ℚ) :=
  ticks.foldl detectStep (initMinDistances n)

/-! ### Queued-latency delivery worker (`LatencyBroker._delay_worker`) -/

/-- A message queued by `LatencyBroker._spin`:
`(runner_nid, perception_obs, header_sequence_num)`. -/
structure QueuedMsg where
  runner_nid : ℕ
  perception_obs : List PerceptionObstacle
  header_sequence_num : ℕ
deriving DecidableEq, Repr

/-- Modelled timing semantics of `LatencyBroker._delay_worker`: one
worker thread repeatedly pops the single shared FIFO queue
(`queue.Queue`, `get` in enqueue order), sleeps `latency` seconds,
then publishes, one message at a time.  Each queue entry is paired
with its enqueue time; the worker pops a message no earlier than both
its enqueue time and the completion of the previous publish (`avail`),
and publishes it `latency` seconds after the pop.  Returns each
message with its publish time, in delivery order. -/
def deliverAll (latency : ℚ) : List (QueuedMsg × ℚ) → ℚ →
    List (QueuedMsg × ℚ)
  | [], _ => []
  | (msg, te) :: rest, avail =>
    (msg, max avail te + latency)
      :: deliverAll latency rest (max avail te + latency)

/-! ### Routing trigger (`ApolloRunner` / `ScenarioRunner`) -/

/-- `ApolloRunner.should_send_routing`:
`t >= self.start_time and not self.routing_started`. -/
def should_send_routing (routing_started : Bool) (start_time t : ℚ) :
    Bool :=
  decide (start_time ≤ t) && !routing_started

/-- The per-tick routing block of `ScenarioRunner.run_scenario`:
`if ar.should_send_routing(runner_time/1000): ar.send_routing()`,
where `send_routing` sets `routing_started = True`.  Returns whether
the event fired this tick and the new flag. -/
def routingTick (routing_started : Bool) (start_time t : ℚ) :
    Bool × Bool :=
  if should_send_routing routing_started start_time t then (true, true)
  else (false, routing_started)

/-- The fired-this-tick trace and final flag over a trial's tick
times (the scenario clock's `runner_time/1000` sequence), starting
from flag state `st` (`ApolloRunner.initialize` sets it to `False`). -/
def runRouting (start_time : ℚ) : List ℚ → Bool → List Bool × Bool
  | [], st => ([], st)
  | t :: rest, st =>
    ((routingTick st start_time t).1
        :: (runRouting start_time rest (routingTick st start_time t).2).1,
      (runRouting start_time rest (routingTick st start_time t).2).2)

/-! ### Bernoulli-drop broker (`IntermittenceBroker._spin`)

The receiver/sender loops compare runner objects by identity
(`if receiver == sender: continue`); with distinct runner objects this
is equality of list positions, so runners are enumerated with their
indices (`List.enum`).  One uniform draw (`random.random()`) is
consumed per ordered (receiver, sender) pair with distinct positions,
in program order; the draws are modelled as the stream `u`. -/

/-- Inner sender loop of the drop pass for one receiver at position
`recvIdx`: skip the receiver itself (no draw), otherwise consume the
next draw `u c` and drop the sender exactly when `u c < p`.  Returns
the kept sender nids (in sender order) and the updated draw
counter. -/
def dropPass (p : ℚ) (u : ℕ → ℚ) (recvIdx : ℕ) :
    List (ℕ × Runner) → ℕ → List ℕ × ℕ
  | [], c => ([], c)
  | (si, s) :: rest, c =>
    if si = recvIdx then dropPass p u recvIdx rest c
    else
      ((if u c < p then (dropPass p u recvIdx rest (c + 1)).1
        else s.nid :: (dropPass p u recvIdx rest (c + 1)).1),
       (dropPass p u recvIdx rest (c + 1)).2)

/-- The `receive_list` dict: outer receiver loop in runner order,
threading the shared draw counter through the inner passes. -/
def receiveDict (p : ℚ) (u : ℕ → ℚ) (senders : List (ℕ × Runner)) :
    List (ℕ × Runner) → ℕ → List (ℕ × List ℕ) → List (ℕ × List ℕ)
  | [], _, acc => acc
  | (ri, r) :: rest, c, acc =>
    receiveDict p u senders rest (dropPass p u ri senders c).2
      (dinsert acc r.nid (dropPass p u ri senders c).1)

/-- Positional (fresh-key) form of `receiveDict`. -/
def receiveListsPos (p : ℚ) (u : ℕ → ℚ) (senders : List (ℕ × Runner)) :
    List (ℕ × Runner) → ℕ → List (ℕ × List ℕ)
  | [], _ => []
  | (ri, r) :: rest, c =>
    (r.nid, (dropPass p u ri senders c).1)
      :: receiveListsPos p u senders rest (dropPass p u ri senders c).2

/-- Snapshot published by `IntermittenceBroker._spin` to the receiver
with id `recvNid`: look up its receive list (every runner's nid is a
key, so the `getD []` default is never taken for an actual receiver),
keep the kept senders' obstacles (`try: obs[x] except KeyError:
continue` skips non-authoritative senders), and append this tick's
pedestrians. -/
def bernoulliSnapshot (genPoly : Point3D → ℚ → List Point3D) (p : ℚ)
    (u : ℕ → ℚ) (runners : List Runner) (pds : List PerceptionObstacle)
    (recvNid : ℕ) : List PerceptionObstacle :=
  ((dget? (receiveDict p u runners.enum runners.enum 0 [])
      recvNid).getD []).filterMap
    (fun x => dget? (obsMap genPoly runners) x) ++ pds

theorem dmem_append (m m' : List (ℕ × α)) (k : ℕ) :
    dmem (m ++ m') k = (dmem m k || dmem m' k) := by
  simp [dmem, List.any_append]

theorem dget?_append_left (m m' : List (ℕ × α)) (k : ℕ)
    (h : dmem m k = false) : dget? (m ++ m') k = dget? m' k := by
  induction m with
  | nil => simp
  | cons a l ih =>
    simp only [dmem, List.any_cons, Bool.or_eq_false_iff] at h
    simp only [List.cons_append, dget?, List.find?_cons, h.1]
    exact ih h.2

theorem dget?_eq_none_of_not_mem (m : List (ℕ × α)) (k : ℕ)
    (h : dmem m k = false) : dget? m k = none := by
  have := dget?_append_left m [] k h
  simpa using this

theorem dinsert_of_not_mem (m : List (ℕ × α)) (k : ℕ) (v : α)
    (h : dmem m k = false) : dinsert m k v = m ++ [(k, v)] := by
  simp [dinsert, h]

theorem locationsFrom_eq (runners : List Runner) :
    ∀ m : List (ℕ × Loc),
      (∀ r ∈ runners, dmem m r.nid = false) →
      (runners.map Runner.nid).Nodup →
      locationsFrom m runners = m ++ locationsSimple runners := by
  induction runners with
  | nil => intro m _ _; simp [locationsFrom, locationsSimple]
  | cons r rest ih =>
    intro m hm hnd
    simp only [List.map_cons, List.nodup_cons] at hnd
    have hmr : dmem m r.nid = false := hm r (List.mem_cons_self r rest)
    match hr : authLoc r with
    | none =>
      have : locationsFrom m (r :: rest) = locationsFrom m rest := by
        simp [locationsFrom, hr]
      rw [this, ih m (fun x hx => hm x (List.mem_cons_of_mem r hx)) hnd.2]
      simp [locationsSimple, hr]
    | some l =>
      have hstep : locationsFrom m (r :: rest)
          = locationsFrom (m ++ [(r.nid, l)]) rest := by
        simp [locationsFrom, hr, dinsert_of_not_mem m r.nid l hmr]
      rw [hstep, ih (m ++ [(r.nid, l)])
        (by
          intro x hx
          have hxnid : r.nid ≠ x.nid := by
            intro hEq
            exact hnd.1 (hEq ▸ List.mem_map_of_mem Runner.nid hx)
          have hxm : dmem m x.nid = false :=
            hm x (List.mem_cons_of_mem r hx)
          rw [dmem_append, hxm, Bool.false_or]
          simp [dmem, hxnid])
        hnd.2]
      simp [locationsSimple, hr]

theorem locations_eq (runners : List Runner)
    (hnd : (runners.map Runner.nid).Nodup) :
    locations runners = locationsSimple runners := by
  have := locationsFrom_eq runners [] (by intro r _; simp [dmem]) hnd
  simpa [locations] using this

theorem locationsSimple_agents (genPoly : Point3D → ℚ → List Point3D)
    (recv : ℕ) (runners : List Runner) :
    ((((locationsSimple runners).map
        (fun p => (p.1, localization_to_obstacle genPoly p.1 p.2))).filter
        (fun p => p.1 ≠ recv)).map Prod.snd)
      = specSnapshotAgents genPoly runners recv := by
  induction runners with
  | nil => simp [locationsSimple, specSnapshotAgents]
  | cons r rest ih =>
    simp only [locationsSimple, specSnapshotAgents, List.filterMap_cons] at ih ⊢
    match hr : authLoc r with
    | none => simpa [hr] using ih
    | some l =>
      by_cases hrn : r.nid = recv
      · simpa [hr, hrn, List.filter_cons] using ih
      · simpa [hr, hrn, List.filter_cons] using ih

theorem identityAgents_eq_spec (genPoly : Point3D → ℚ → List Point3D)
    (runners : List Runner) (recv : ℕ)
    (hnd : (runners.map Runner.nid).Nodup) :
    identityAgents (obsMap genPoly runners) recv
      = specSnapshotAgents genPoly runners recv := by
  unfold identityAgents obsMap
  rw [locations_eq runners hnd]
  exact locationsSimple_agents genPoly recv runners

theorem specSnapshotAgents_countP (genPoly : Point3D → ℚ → List Point3D)
    (recv i : ℕ) (runners : List Runner)
    (hnd : (runners.map Runner.nid).Nodup) :
    (specSnapshotAgents genPoly runners recv).countP (fun o => o.id == i)
      = if i ∈ (runners.filter
            (fun r => (authLoc r).isSome)).map Runner.nid ∧ i ≠ recv
        then 1 else 0 := by
  induction runners with
  | nil => simp [specSnapshotAgents]
  | cons r rest ih =>
    simp only [List.map_cons, List.nodup_cons] at hnd
    have ihr := ih hnd.2
    have hsub : ∀ j : ℕ,
        j ∈ (rest.filter (fun x => (authLoc x).isSome)).map Runner.nid →
        j ∈ rest.map Runner.nid := by
      intro j hj
      rcases List.mem_map.mp hj with ⟨x, hx, hxe⟩
      exact hxe ▸ List.mem_map_of_mem Runner.nid (List.mem_of_mem_filter hx)
    simp only [specSnapshotAgents] at ihr ⊢
    match hr : authLoc r with
    | none =>
      rw [List.filterMap_cons_none (by simp [hr]), ihr,
        List.filter_cons]
      simp only [hr, Option.isSome_none, Bool.false_eq_true, if_false]
    | some l =>
      by_cases hrn : r.nid = recv
      · subst hrn
        rw [List.filterMap_cons_none (by simp), ihr, List.filter_cons]
        simp only [hr, Option.isSome_some, if_true, List.map_cons,
          List.mem_cons]
        exact if_congr (by tauto) rfl rfl
      · rw [show (List.filterMap
            (fun x => if x.nid = recv then none
              else Option.map
                (fun l => localization_to_obstacle genPoly x.nid l)
                (authLoc x))
            (r :: rest))
          = localization_to_obstacle genPoly r.nid l
              :: List.filterMap
                (fun x => if x.nid = recv then none
                  else Option.map
                    (fun l => localization_to_obstacle genPoly x.nid l)
                    (authLoc x))
                rest
          from List.filterMap_cons_some (by simp [hr, hrn]),
          List.countP_cons, ihr, List.filter_cons]
        simp only [hr, Option.isSome_some, if_true, List.map_cons,
          List.mem_cons]
        by_cases hi : i = r.nid
        · subst hi
          have hnotrest : r.nid ∉ (rest.filter
              (fun x => (authLoc x).isSome)).map Runner.nid :=
            fun hmem => hnd.1 (hsub r.nid hmem)
          rw [if_neg (fun hc => hnotrest hc.1),
            if_pos (by simp [localization_to_obstacle]),
            if_pos ⟨Or.inl rfl, hrn⟩]
        · rw [if_neg (show ¬ ((fun o => o.id == i)
              (localization_to_obstacle genPoly r.nid l) = true) from by
            simp only [localization_to_obstacle, beq_iff_eq]
            exact fun h => hi h.symm),
            Nat.add_zero]
          exact if_congr (by tauto) rfl rfl

/-- C2: under the Identity fault model, the published snapshot of every
receiver at every tick is exactly one Obstacle per other agent whose
state is authoritative (tagged as coming from `SimControl`) — no
omissions, no duplicates — followed by the externally supplied
pedestrian obstacles for the tick. -/
theorem C2_identity_exactly_one_per_agent
    (genPoly : Point3D → ℚ → List Point3D) (runners : List Runner)
    (pds : List PerceptionObstacle) (recv : Runner)
    (hnd : (runners.map Runner.nid).Nodup) :
    identitySnapshot genPoly runners pds recv.nid
      = specSnapshotAgents genPoly runners recv.nid ++ pds
    ∧ ∀ i : ℕ,
        (identityAgents (obsMap genPoly runners) recv.nid).countP
            (fun o => o.id == i)
          = if i ∈ (runners.filter
                (fun r => (authLoc r).isSome)).map Runner.nid ∧ i ≠ recv.nid
            then 1 else 0 := by
  constructor
  · unfold identitySnapshot
    rw [identityAgents_eq_spec genPoly runners recv.nid hnd]
  · intro i
    rw [identityAgents_eq_spec genPoly runners recv.nid hnd]
    exact specSnapshotAgents_countP genPoly recv.nid i runners hnd

theorem C2_identity_witness :
    ([demoR1, demoR2].map Runner.nid).Nodup
    ∧ (identitySnapshot demoPoly demoRunners [] demoR1.nid
        = specSnapshotAgents demoPoly demoRunners demoR1.nid ++ []
      ∧ ∀ i : ℕ,
          (identityAgents (obsMap demoPoly demoRunners) demoR1.nid).countP
              (fun o => o.id == i)
            = if i ∈ (demoRunners.filter
                  (fun r => (authLoc r).isSome)).map Runner.nid ∧ i ≠ demoR1.nid
              then 1 else 0) :=
  ⟨by decide,
   C2_identity_exactly_one_per_agent demoPoly demoRunners [] demoR1 (by decide)⟩

theorem radiusAgents_filter
    (polyDist : PerceptionObstacle → PerceptionObstacle → ℚ)
    (radius : WithTop ℚ) (obs : List (ℕ × PerceptionObstacle))
    (recv : ℕ) (oR : PerceptionObstacle)
    (hrecv : dget? obs recv = some oR) :
    radiusAgents polyDist radius obs recv
      = (obs.filter (fun p =>
          p.1 ≠ recv ∧ (polyDist oR p.2 : WithTop ℚ) ≤ radius)).map
          Prod.snd := by
  unfold radiusAgents
  rw [hrecv]
  generalize obs = l
  show List.filterMap (fun p =>
      if p.1 = recv then none
      else if (polyDist oR p.2 : WithTop ℚ) ≤ radius then some p.2
        else none) l
    = (l.filter (fun p =>
        p.1 ≠ recv ∧ (polyDist oR p.2 : WithTop ℚ) ≤ radius)).map Prod.snd
  induction l with
  | nil => simp
  | cons a l ih =>
    by_cases h1 : a.1 = recv
    · rw [List.filterMap_cons_none (by simp [h1]), ih, List.filter_cons]
      simp [h1]
    · by_cases h2 : (polyDist oR a.2 : WithTop ℚ) ≤ radius
      · rw [show List.filterMap (fun p =>
            if p.1 = recv then none
            else if (polyDist oR p.2 : WithTop ℚ) ≤ radius then some p.2
              else none) (a :: l)
          = a.2 :: List.filterMap (fun p =>
              if p.1 = recv then none
              else if (polyDist oR p.2 : WithTop ℚ) ≤ radius then some p.2
                else none) l
          from List.filterMap_cons_some (by simp [h1, h2]),
          ih, List.filter_cons]
        simp [h1, h2]
      · rw [List.filterMap_cons_none (by simp [h1, h2]), ih,
          List.filter_cons]
        simp [h1, h2]

/-- C3: under `RadiusCutoff(r)`, for a receiver whose own state is
authoritative (present in the obstacle map with obstacle `oR`), agent
`i`'s obstacle appears in the snapshot exactly when the polygon
distance to the receiver is `≤ r` (filter characterization); with
`r = ∞` the snapshot coincides with Identity; with `r = 0` and a
nonnegative distance only distance-zero (touching/overlapping)
footprints pass; pedestrian obstacles are appended regardless of the
radius. -/
theorem C3_radius_cutoff
    (polyDist : PerceptionObstacle → PerceptionObstacle → ℚ)
    (genPoly : Point3D → ℚ → List Point3D) (runners : List Runner)
    (pds : List PerceptionObstacle) (radius : WithTop ℚ)
    (recv : ℕ) (oR : PerceptionObstacle)
    (hrecv : dget? (obsMap genPoly runners) recv = some oR)
    (hpos : ∀ a b, 0 ≤ polyDist a b) :
    (radiusAgents polyDist radius (obsMap genPoly runners) recv
      = ((obsMap genPoly runners).filter (fun p =>
          p.1 ≠ recv ∧ (polyDist oR p.2 : WithTop ℚ) ≤ radius)).map
          Prod.snd)
    ∧ (radiusSnapshot polyDist genPoly ⊤ runners pds recv
        = identitySnapshot genPoly runners pds recv)
    ∧ (radiusAgents polyDist ((0 : ℚ) : WithTop ℚ)
          (obsMap genPoly runners) recv
        = ((obsMap genPoly runners).filter (fun p =>
            p.1 ≠ recv ∧ polyDist oR p.2 = 0)).map Prod.snd)
    ∧ (∀ radius' : WithTop ℚ,
        radiusSnapshot polyDist genPoly radius' runners pds recv
          = radiusAgents polyDist radius' (obsMap genPoly runners) recv
              ++ pds) := by
  refine ⟨radiusAgents_filter polyDist radius _ recv oR hrecv, ?_, ?_,
    fun _ => rfl⟩
  · unfold radiusSnapshot identitySnapshot identityAgents
    rw [radiusAgents_filter polyDist ⊤ _ recv oR hrecv]
    congr 1
    apply congrArg
    apply List.filter_congr
    intro p _
    simp
  · rw [radiusAgents_filter polyDist _ _ recv oR hrecv]
    apply congrArg
    apply List.filter_congr
    intro p _
    have h0 : polyDist oR p.2 ≤ 0 ↔ polyDist oR p.2 = 0 :=
      ⟨fun h => le_antisymm h (hpos oR p.2), fun h => le_of_eq h⟩
    simp [WithTop.coe_le_coe, h0]

theorem C3_radius_witness :
    (dget? (obsMap demoPoly demoRunners) 1
        = some (localization_to_obstacle demoPoly 1 demoLoc))
    ∧ ((radiusAgents demoDist ((3 : ℚ) : WithTop ℚ)
          (obsMap demoPoly demoRunners) 1
        = ((obsMap demoPoly demoRunners).filter (fun p =>
            p.1 ≠ 1 ∧ (demoDist (localization_to_obstacle demoPoly 1 demoLoc)
              p.2 : WithTop ℚ) ≤ ((3 : ℚ) : WithTop ℚ))).map Prod.snd)
      ∧ (radiusSnapshot demoDist demoPoly ⊤ demoRunners [] 1
          = identitySnapshot demoPoly demoRunners [] 1)
      ∧ (radiusAgents demoDist ((0 : ℚ) : WithTop ℚ)
            (obsMap demoPoly demoRunners) 1
          = ((obsMap demoPoly demoRunners).filter (fun p =>
              p.1 ≠ 1 ∧ demoDist (localization_to_obstacle demoPoly 1 demoLoc)
                p.2 = 0)).map Prod.snd)
      ∧ (∀ radius' : WithTop ℚ,
          radiusSnapshot demoDist demoPoly radius' demoRunners [] 1
            = radiusAgents demoDist radius' (obsMap demoPoly demoRunners) 1
                ++ [])) :=
  ⟨by decide,
   C3_radius_cutoff demoDist demoPoly demoRunners [] ((3 : ℚ) : WithTop ℚ) 1
     (localization_to_obstacle demoPoly 1 demoLoc) (by decide)
     (fun _ _ => le_refl 0)⟩

theorem dmem_map_fst {α β : Type} (f : ℕ × α → β) (l : List (ℕ × α))
    (k : ℕ) :
    dmem (l.map (fun p => (p.1, f p))) k = dmem l k := by
  induction l with
  | nil => rfl
  | cons a t ih =>
    unfold dmem at ih ⊢
    simp only [List.map_cons, List.any_cons]
    rw [ih]

theorem dmem_obsMap (genPoly : Point3D → ℚ → List Point3D)
    (runners : List Runner) (k : ℕ) :
    dmem (obsMap genPoly runners) k = dmem (locations runners) k := by
  unfold obsMap
  exact dmem_map_fst (fun p => localization_to_obstacle genPoly p.1 p.2)
    (locations runners) k

theorem dmem_noiseObsMap (genPoly : Point3D → ℚ → List Point3D)
    (sigma1 sigma2 sigma3 sigma4 : ℚ) (z : ℕ → ℕ → ℚ)
    (runners : List Runner) (k : ℕ) :
    dmem (noiseObsMap genPoly sigma1 sigma2 sigma3 sigma4 z runners) k
      = dmem (locations runners) k := by
  unfold noiseObsMap
  exact dmem_map_fst (fun p => noise_localization_to_obstacle genPoly
    sigma1 sigma2 sigma3 sigma4 (z p.1) p.1 p.2) (locations runners) k

/-- C10: a receiver whose own state is not authoritative this tick
(absent from the obstacle map) gets a snapshot containing only the
pedestrian obstacles under the radius, delay, and latency brokers
(their per-receiver test `runner.nid in obs_poly` fails), but still
gets every authoritative agent's obstacle under the identity and
noise brokers. -/
theorem C10_nonauthoritative_receiver
    (polyDist : PerceptionObstacle → PerceptionObstacle → ℚ)
    (genPoly : Point3D → ℚ → List Point3D)
    (sigma1 sigma2 sigma3 sigma4 : ℚ) (z : ℕ → ℕ → ℚ)
    (runners : List Runner) (pds : List PerceptionObstacle) (recv : ℕ)
    (h : dmem (obsMap genPoly runners) recv = false) :
    (∀ radius : WithTop ℚ,
      radiusSnapshot polyDist genPoly radius runners pds recv = pds)
    ∧ delaySnapshot genPoly runners pds recv = pds
    ∧ latencySnapshot genPoly runners pds recv = pds
    ∧ identitySnapshot genPoly runners pds recv
        = (obsMap genPoly runners).map Prod.snd ++ pds
    ∧ noiseSnapshot genPoly sigma1 sigma2 sigma3 sigma4 z runners pds recv
        = (noiseObsMap genPoly sigma1 sigma2 sigma3 sigma4 z runners).map
            Prod.snd ++ pds := by
  have hget : dget? (obsMap genPoly runners) recv = none :=
    dget?_eq_none_of_not_mem _ _ h
  have hne : ∀ p ∈ obsMap genPoly runners, (p.1 == recv) = false := by
    intro p hp
    have hx := (List.any_eq_false.mp h) p hp
    simpa using hx
  refine ⟨?_, ?_, ?_, ?_, ?_⟩
  · intro radius
    unfold radiusSnapshot
    have : radiusAgents polyDist radius (obsMap genPoly runners) recv
        = [] := by
      unfold radiusAgents
      rw [hget]
      apply List.filterMap_eq_nil_iff.mpr
      intro a _
      by_cases h1 : a.1 = recv
      · simp [h1]
      · simp [h1]
    rw [this, List.nil_append]
  · unfold delaySnapshot
    have : delayAgents (obsMap genPoly runners) recv = [] := by
      unfold delayAgents
      apply List.filterMap_eq_nil_iff.mpr
      intro a _
      by_cases h1 : a.1 = recv
      · simp [h1]
      · simp [h1, h]
    rw [this, List.nil_append]
  · unfold latencySnapshot
    have : latencyAgents (obsMap genPoly runners) recv = [] := by
      unfold latencyAgents
      apply List.filterMap_eq_nil_iff.mpr
      intro a _
      by_cases h1 : a.1 = recv
      · simp [h1]
      · simp [h1, h]
    rw [this, List.nil_append]
  · unfold identitySnapshot identityAgents
    congr 1
    apply congrArg
    apply List.filter_eq_self.mpr
    intro p hp
    simpa using beq_eq_false_iff_ne.mp (hne p hp)
  · unfold noiseSnapshot identityAgents
    have hnn : ∀ p ∈ noiseObsMap genPoly sigma1 sigma2 sigma3 sigma4 z
        runners, (p.1 == recv) = false := by
      intro p hp
      have hd : dmem (noiseObsMap genPoly sigma1 sigma2 sigma3 sigma4 z
          runners) recv = false := by
        rw [dmem_noiseObsMap, ← dmem_obsMap genPoly]
        exact h
      have hx := (List.any_eq_false.mp hd) p hp
      simpa using hx
    congr 1
    apply congrArg
    apply List.filter_eq_self.mpr
    intro p hp
    simpa using beq_eq_false_iff_ne.mp (hnn p hp)

theorem C10_witness :
    dmem (obsMap demoPoly demoRunners) 5 = false
    ∧ ((∀ radius : WithTop ℚ,
        radiusSnapshot demoDist demoPoly radius demoRunners
          [demoObs] 5 = [demoObs])
      ∧ delaySnapshot demoPoly demoRunners [demoObs] 5 = [demoObs]
      ∧ latencySnapshot demoPoly demoRunners [demoObs] 5 = [demoObs]
      ∧ identitySnapshot demoPoly demoRunners [demoObs] 5
          = (obsMap demoPoly demoRunners).map Prod.snd ++ [demoObs]
      ∧ noiseSnapshot demoPoly 0 0 0 0 (fun _ _ => 0) demoRunners
            [demoObs] 5
          = (noiseObsMap demoPoly 0 0 0 0 (fun _ _ => 0) demoRunners).map
              Prod.snd ++ [demoObs]) :=
  ⟨by decide,
   C10_nonauthoritative_receiver demoDist demoPoly 0 0 0 0 (fun _ _ => 0)
     demoRunners [demoObs] 5 (by decide)⟩

/-- C6: applying Gaussian noise with all standard deviations zero is
the identity transform — the perceived obstacle equals the obstacle
built without noise; for every sigma, the z-components of position,
velocity and acceleration pass through unperturbed, the footprint
polygon is recomputed from the noised position and heading, and
`gaussian_noise` with `std_dev = 0` returns its input for any draw. -/
theorem C6_noise_sigma_zero_identity
    (genPoly : Point3D → ℚ → List Point3D) (z : ℕ → ℚ) (i : ℕ)
    (data : Loc) (sigma1 sigma2 sigma3 sigma4 : ℚ) :
    (noise_localization_to_obstacle genPoly 0 0 0 0 z i data
      = localization_to_obstacle genPoly i data)
    ∧ ((noise_localization_to_obstacle genPoly sigma1 sigma2 sigma3 sigma4
          z i data).position.z = data.pose.position.z
      ∧ (noise_localization_to_obstacle genPoly sigma1 sigma2 sigma3 sigma4
          z i data).velocity.z = data.pose.linear_velocity.z
      ∧ (noise_localization_to_obstacle genPoly sigma1 sigma2 sigma3 sigma4
          z i data).acceleration.z = data.pose.linear_acceleration.z)
    ∧ ((noise_localization_to_obstacle genPoly sigma1 sigma2 sigma3 sigma4
          z i data).polygon_point
        = genPoly (noise_localization_to_obstacle genPoly sigma1 sigma2
            sigma3 sigma4 z i data).position
          (noise_localization_to_obstacle genPoly sigma1 sigma2 sigma3
            sigma4 z i data).theta)
    ∧ (∀ value scale zz : ℚ, gaussian_noise value 0 scale zz = value) := by
  refine ⟨?_, ⟨rfl, rfl, rfl⟩, rfl, ?_⟩
  · simp [noise_localization_to_obstacle, localization_to_obstacle,
      noise_Point3D, gaussian_noise, gauss, to_Point3D]
  · intro value scale zz
    simp [gaussian_noise, gauss]

/-- C5 counterexample: the factory has no tag for the FixedDelay
variant — `set_mode 'DelayBroker'` raises `ValueError` even though
`DelayBroker` exists in `src/broker/delay.py` — and out-of-range
parameters are accepted without any error: a drop probability of 2
and a radius of -1 both construct brokers successfully. -/
theorem C5_counterexample :
    set_mode "DelayBroker" = Except.error "Unexpected mode in BrokerFactory"
    ∧ createbk (some "IntermittenceBroker") 2
        = Except.ok (Broker.intermittence 2)
    ∧ createbk (some "RadiusBroker") (-1)
        = Except.ok (Broker.radius (-1)) := by
  refine ⟨by simp [set_mode, validModes], rfl, rfl⟩

/-- C5 amended: `set_mode` succeeds exactly on the five tags
`MessageBroker`, `RadiusBroker`, `LatencyBroker`, `NoiseBroker`,
`IntermittenceBroker` (there is no FixedDelay/`DelayBroker` tag) and
raises `ValueError` otherwise; `createbk` maps each accepted tag to
the corresponding broker and raises `ValueError` for any other stored
mode (including unset); parameters are never validated — any rational
parameter is accepted for every mode. -/
theorem C5_factory_fail_fast (m : String) (p : ℚ) :
    ((set_mode m).isOk ↔ m ∈ validModes)
    ∧ createbk (some "MessageBroker") p = Except.ok Broker.message
    ∧ createbk (some "RadiusBroker") p = Except.ok (Broker.radius p)
    ∧ createbk (some "LatencyBroker") p = Except.ok (Broker.latency p)
    ∧ createbk (some "NoiseBroker") p = Except.ok (Broker.noise p 0 0 0)
    ∧ createbk (some "IntermittenceBroker") p
        = Except.ok (Broker.intermittence p)
    ∧ createbk none p = Except.error "Unexpected mode in BrokerFactory"
    ∧ (m ∉ validModes →
        createbk (some m) p
          = Except.error "Unexpected mode in BrokerFactory") := by
  refine ⟨?_, rfl, rfl, rfl, rfl, rfl, rfl, ?_⟩
  · by_cases h : m ∈ validModes
    · have hs : set_mode m = Except.ok m := by
        unfold set_mode
        rw [if_pos h]
      rw [hs]
      exact iff_of_true rfl h
    · have hs : set_mode m
          = Except.error "Unexpected mode in BrokerFactory" := by
        unfold set_mode
        rw [if_neg h]
      rw [hs]
      exact iff_of_false (fun hh => Bool.false_ne_true hh) h
  · intro hm
    have h1 : m ≠ "MessageBroker" := fun h => hm (by simp [validModes, h])
    have h2 : m ≠ "RadiusBroker" := fun h => hm (by simp [validModes, h])
    have h3 : m ≠ "LatencyBroker" := fun h => hm (by simp [validModes, h])
    have h4 : m ≠ "NoiseBroker" := fun h => hm (by simp [validModes, h])
    have h5 : m ≠ "IntermittenceBroker" :=
      fun h => hm (by simp [validModes, h])
    unfold createbk
    split <;> simp_all

theorem C5_factory_witness :
    ("DelayBroker" ∉ validModes)
    ∧ (((set_mode "DelayBroker").isOk ↔ "DelayBroker" ∈ validModes)
      ∧ createbk (some "MessageBroker") 7 = Except.ok Broker.message
      ∧ createbk (some "RadiusBroker") 7 = Except.ok (Broker.radius 7)
      ∧ createbk (some "LatencyBroker") 7 = Except.ok (Broker.latency 7)
      ∧ createbk (some "NoiseBroker") 7 = Except.ok (Broker.noise 7 0 0 0)
      ∧ createbk (some "IntermittenceBroker") 7
          = Except.ok (Broker.intermittence 7)
      ∧ createbk none 7 = Except.error "Unexpected mode in BrokerFactory"
      ∧ ("DelayBroker" ∉ validModes →
          createbk (some "DelayBroker") 7
            = Except.error "Unexpected mode in BrokerFactory")) :=
  ⟨by decide, C5_factory_fail_fast "DelayBroker" 7⟩

/-- C7 counterexample: configuring the factory for the noise broker
with its (single) parameter 5 constructs `NoiseBroker(runners, 5, 0,
0, 0)` — the heading, velocity and acceleration standard deviations
are the hard-coded literals 0, not configured values; the factory
configuration carries one numeric parameter, not four. -/
theorem C7_counterexample :
    createbk (some "NoiseBroker") (set_param 5)
      = Except.ok (Broker.noise 5 0 0 0) := rfl

/-- C7 amended: the `NoiseBroker` class itself carries four standard
deviations and applies each to its respective quantity, but the
factory stores a single numeric parameter and passes it as the
position sigma only, hard-coding the heading, velocity and
acceleration sigmas to 0 — so a factory-constructed noise broker
perturbs position (by the configured sigma) while heading, velocity
and acceleration pass through exactly. -/
theorem C7_factory_noise_single_param (p : ℚ)
    (genPoly : Point3D → ℚ → List Point3D) (z : ℕ → ℚ) (i : ℕ)
    (data : Loc) :
    createbk (some "NoiseBroker") (set_param p)
      = Except.ok (Broker.noise p 0 0 0)
    ∧ (noise_localization_to_obstacle genPoly p 0 0 0 z i data).theta
        = data.pose.heading
    ∧ (noise_localization_to_obstacle genPoly p 0 0 0 z i data).velocity
        = to_Point3D data.pose.linear_velocity
    ∧ (noise_localization_to_obstacle genPoly p 0 0 0 z i
        data).acceleration = to_Point3D data.pose.linear_acceleration
    ∧ (noise_localization_to_obstacle genPoly p 0 0 0 z i
        data).position.x = data.pose.position.x + p * z 0
    ∧ (noise_localization_to_obstacle genPoly p 0 0 0 z i
        data).position.y = data.pose.position.y + p * z 1 := by
  refine ⟨rfl, ?_, ?_, ?_, ?_, ?_⟩
  · simp [noise_localization_to_obstacle, gaussian_noise, gauss]
  · simp [noise_localization_to_obstacle, noise_Point3D, gaussian_noise,
      gauss, to_Point3D]
  · simp [noise_localization_to_obstacle, noise_Point3D, gaussian_noise,
      gauss, to_Point3D]
  · simp [noise_localization_to_obstacle, noise_Point3D, gaussian_noise,
      gauss, to_Point3D]
  · simp [noise_localization_to_obstacle, noise_Point3D, gaussian_noise,
      gauss, to_Point3D]

theorem detectStep_le (md : ℕ × ℕ → Option (WithTop ℚ))
    (cur : ℕ × ℕ → Option ℚ) (p : ℕ × ℕ) (m : WithTop ℚ)
    (h : md p = some m) :
    ∃ m' : WithTop ℚ, detectStep md cur p = some m' ∧ m' ≤ m := by
  unfold detectStep
  match hc : cur p with
  | none => exact ⟨m, h, le_refl m⟩
  | some d =>
    rw [h]
    exact ⟨min m (d : WithTop ℚ), rfl, min_le_left m _⟩

theorem foldl_detectStep_le (ticks : List (ℕ × ℕ → Option ℚ)) :
    ∀ (md : ℕ × ℕ → Option (WithTop ℚ)) (p : ℕ × ℕ) (m : WithTop ℚ),
      md p = some m →
      ∃ m' : WithTop ℚ,
        ticks.foldl detectStep md p = some m' ∧ m' ≤ m := by
  induction ticks with
  | nil => intro md p m h; exact ⟨m, h, le_refl m⟩
  | cons t rest ih =>
    intro md p m h
    rcases detectStep_le md t p m h with ⟨m1, h1, hle1⟩
    rcases ih (detectStep md t) p m1 h1 with ⟨m2, h2, hle2⟩
    exact ⟨m2, h2, le_trans hle2 hle1⟩

theorem foldl_detectStep_untouched (ticks : List (ℕ × ℕ → Option ℚ)) :
    ∀ (md : ℕ × ℕ → Option (WithTop ℚ)) (p : ℕ × ℕ),
      (∀ t ∈ ticks, t p = none) →
      ticks.foldl detectStep md p = md p := by
  induction ticks with
  | nil => intro md p _; rfl
  | cons t rest ih =>
    intro md p h
    have ht : t p = none := h t (List.mem_cons_self t rest)
    have hstep : detectStep md t p = md p := by
      unfold detectStep
      rw [ht]
    rw [List.foldl_cons,
      ih (detectStep md t) p (fun u hu => h u (List.mem_cons_of_mem t hu)),
      hstep]

/-- C1: the collision monitor's minimum-distance map has exactly one
entry per index pair `i < j < n`, seeded to `+inf` at construction;
a sampled pair (both agents authoritative, per `get_polygon_dist`)
is updated to `min(stored, distance)`, a pair not sampled this tick is
left untouched; consequently each key is monotonically non-increasing
over the trial, and a pair never co-observed still reads `+inf`. -/
theorem C1_collision_monitor (n : ℕ)
    (ticks : List (ℕ × ℕ → Option ℚ)) (i j : ℕ)
    (hij : i < j) (hjn : j < n) :
    initMinDistances n (i, j) = some ⊤
    ∧ (∀ k : ℕ × ℕ, ¬ (k.1 < k.2 ∧ k.2 < n) →
        initMinDistances n k = none)
    ∧ (∀ (polyDist : PerceptionObstacle → PerceptionObstacle → ℚ)
        (genPoly : Point3D → ℚ → List Point3D) (runners : List Runner)
        (ri rj : Runner),
        runners[i]? = some ri → runners[j]? = some rj →
        j < runners.length →
        (∀ oi oj : PerceptionObstacle,
          dget? (obsMap genPoly runners) ri.nid = some oi →
          dget? (obsMap genPoly runners) rj.nid = some oj →
          get_polygon_dist polyDist genPoly runners (i, j)
            = some (polyDist oi oj))
        ∧ (dget? (obsMap genPoly runners) ri.nid = none →
            get_polygon_dist polyDist genPoly runners (i, j) = none)
        ∧ (dget? (obsMap genPoly runners) rj.nid = none →
            get_polygon_dist polyDist genPoly runners (i, j) = none))
    ∧ (∀ (md : ℕ × ℕ → Option (WithTop ℚ)) (cur : ℕ × ℕ → Option ℚ)
        (d : ℚ) (m : WithTop ℚ),
        cur (i, j) = some d → md (i, j) = some m →
        detectStep md cur (i, j) = some (min m (d : WithTop ℚ)))
    ∧ (∀ (md : ℕ × ℕ → Option (WithTop ℚ)) (cur : ℕ × ℕ → Option ℚ),
        cur (i, j) = none → detectStep md cur (i, j) = md (i, j))
    ∧ (∀ (extra : List (ℕ × ℕ → Option ℚ)) (v v' : WithTop ℚ),
        runDetector n ticks (i, j) = some v' →
        runDetector n (ticks ++ extra) (i, j) = some v →
        v ≤ v')
    ∧ ((∀ t ∈ ticks, t (i, j) = none) →
        runDetector n ticks (i, j) = some ⊤) := by
  have hinit : initMinDistances n (i, j) = some ⊤ := by
    unfold initMinDistances
    rw [if_pos ⟨hij, hjn⟩]
  refine ⟨hinit, ?_, ?_, ?_, ?_, ?_, ?_⟩
  · intro k hk
    unfold initMinDistances
    rw [if_neg hk]
  · intro polyDist genPoly runners ri rj hri hrj hlen
    refine ⟨?_, ?_, ?_⟩
    · intro oi oj hoi hoj
      unfold get_polygon_dist
      rw [if_pos ⟨hij, hlen⟩]
      simp only [hri, hrj, hoi, hoj]
    · intro hoi
      unfold get_polygon_dist
      rw [if_pos ⟨hij, hlen⟩]
      simp only [hri, hrj, hoi]
    · intro hoj
      unfold get_polygon_dist
      rw [if_pos ⟨hij, hlen⟩]
      simp only [hri, hrj, hoj]
      match hdi : dget? (obsMap genPoly runners) ri.nid with
      | none => rfl
      | some oi => rfl
  · intro md cur d m hc hm
    unfold detectStep
    rw [hc, hm]
  · intro md cur hc
    unfold detectStep
    rw [hc]
  · intro extra v v' hv' hv
    unfold runDetector at hv' hv
    rw [List.foldl_append] at hv
    rcases foldl_detectStep_le extra (ticks.foldl detectStep
      (initMinDistances n)) (i, j) v' hv' with ⟨m2, h2, hle⟩
    rw [hv] at h2
    exact (Option.some_inj.mp h2) ▸ hle
  · intro hnever
    unfold runDetector
    rw [foldl_detectStep_untouched ticks (initMinDistances n) (i, j)
      hnever, hinit]

theorem C1_witness :
    (0 < 1 ∧ 1 < 2)
    ∧ (initMinDistances 2 (0, 1) = some ⊤
      ∧ (∀ k : ℕ × ℕ, ¬ (k.1 < k.2 ∧ k.2 < 2) →
          initMinDistances 2 k = none)
      ∧ (∀ (polyDist : PerceptionObstacle → PerceptionObstacle → ℚ)
          (genPoly : Point3D → ℚ → List Point3D) (runners : List Runner)
          (ri rj : Runner),
          runners[0]? = some ri → runners[1]? = some rj →
          1 < runners.length →
          (∀ oi oj : PerceptionObstacle,
            dget? (obsMap genPoly runners) ri.nid = some oi →
            dget? (obsMap genPoly runners) rj.nid = some oj →
            get_polygon_dist polyDist genPoly runners (0, 1)
              = some (polyDist oi oj))
          ∧ (dget? (obsMap genPoly runners) ri.nid = none →
              get_polygon_dist polyDist genPoly runners (0, 1) = none)
          ∧ (dget? (obsMap genPoly runners) rj.nid = none →
              get_polygon_dist polyDist genPoly runners (0, 1) = none))
      ∧ (∀ (md : ℕ × ℕ → Option (WithTop ℚ)) (cur : ℕ × ℕ → Option ℚ)
          (d : ℚ) (m : WithTop ℚ),
          cur (0, 1) = some d → md (0, 1) = some m →
          detectStep md cur (0, 1) = some (min m (d : WithTop ℚ)))
      ∧ (∀ (md : ℕ × ℕ → Option (WithTop ℚ)) (cur : ℕ × ℕ → Option ℚ),
          cur (0, 1) = none → detectStep md cur (0, 1) = md (0, 1))
      ∧ (∀ (extra : List (ℕ × ℕ → Option ℚ)) (v v' : WithTop ℚ),
          runDetector 2 [] (0, 1) = some v' →
          runDetector 2 ([] ++ extra) (0, 1) = some v →
          v ≤ v')
      ∧ ((∀ t ∈ ([] : List (ℕ × ℕ → Option ℚ)), t (0, 1) = none) →
          runDetector 2 [] (0, 1) = some ⊤)) :=
  ⟨by decide, C1_collision_monitor 2 [] 0 1 (by decide) (by decide)⟩

theorem deliverAll_map_fst (latency : ℚ) :
    ∀ (queue : List (QueuedMsg × ℚ)) (avail : ℚ),
      (deliverAll latency queue avail).map Prod.fst
        = queue.map Prod.fst := by
  intro queue
  induction queue with
  | nil => intro avail; rfl
  | cons q rest ih =>
    intro avail
    rcases q with ⟨msg, te⟩
    simp only [deliverAll, List.map_cons, ih]

theorem deliverAll_head_ge (latency : ℚ) (hL : 0 ≤ latency) :
    ∀ (queue : List (QueuedMsg × ℚ)) (avail : ℚ) (p : QueuedMsg × ℚ),
      p ∈ (deliverAll latency queue avail).head? → avail ≤ p.2 := by
  intro queue
  match queue with
  | [] => intro avail p hp; simp [deliverAll] at hp
  | (msg, te) :: rest =>
    intro avail p hp
    simp only [deliverAll, List.head?_cons, Option.mem_def,
      Option.some_inj] at hp
    rw [← hp]
    calc avail ≤ max avail te := le_max_left avail te
    _ ≤ max avail te + latency := le_add_of_nonneg_right hL

theorem deliverAll_chain (latency : ℚ) (hL : 0 ≤ latency) :
    ∀ (queue : List (QueuedMsg × ℚ)) (avail : ℚ),
      List.Chain' (fun a b : QueuedMsg × ℚ => a.2 ≤ b.2)
        (deliverAll latency queue avail) := by
  intro queue
  induction queue with
  | nil => intro avail; exact List.chain'_nil
  | cons q rest ih =>
    intro avail
    rcases q with ⟨msg, te⟩
    simp only [deliverAll]
    rw [List.chain'_cons']
    exact ⟨fun b hb => deliverAll_head_ge latency hL rest _ b hb, ih _⟩

theorem deliverAll_index (latency : ℚ) :
    ∀ (queue : List (QueuedMsg × ℚ)) (avail : ℚ) (k : ℕ)
      (msg : QueuedMsg) (te : ℚ),
      queue[k]? = some (msg, te) →
      ∃ tp : ℚ, (deliverAll latency queue avail)[k]? = some (msg, tp)
        ∧ te + latency ≤ tp := by
  intro queue
  induction queue with
  | nil => intro avail k msg te h; simp at h
  | cons q rest ih =>
    intro avail k msg te h
    rcases q with ⟨msg0, te0⟩
    match k with
    | 0 =>
      rw [List.getElem?_cons_zero, Option.some_inj] at h
      cases h
      refine ⟨max avail te + latency, ?_, ?_⟩
      · simp only [deliverAll, List.getElem?_cons_zero]
      · exact add_le_add_right (le_max_right avail te) latency
    | k + 1 =>
      rw [List.getElem?_cons_succ] at h
      rcases ih (max avail te0 + latency) k msg te h with ⟨tp, h1, h2⟩
      exact ⟨tp, by simp only [deliverAll, List.getElem?_cons_succ]; exact h1,
        h2⟩

/-- C8: under `QueuedLatency(L)`, the delivery worker publishes the
queued messages in exactly enqueue order (same messages, same order —
hence also per receiver), every message's publish time is at least its
enqueue time plus `L`, and publish times are nondecreasing along the
delivery (one shared FIFO, one message at a time). -/
theorem C8_latency_fifo (latency : ℚ) (queue : List (QueuedMsg × ℚ))
    (avail : ℚ) (hL : 0 ≤ latency) :
    ((deliverAll latency queue avail).map Prod.fst = queue.map Prod.fst)
    ∧ (∀ (recvNid : ℕ),
        ((deliverAll latency queue avail).map Prod.fst).filter
            (fun m => m.runner_nid == recvNid)
          = (queue.map Prod.fst).filter
              (fun m => m.runner_nid == recvNid))
    ∧ (∀ (k : ℕ) (msg : QueuedMsg) (te : ℚ),
        queue[k]? = some (msg, te) →
        ∃ tp : ℚ, (deliverAll latency queue avail)[k]? = some (msg, tp)
          ∧ te + latency ≤ tp)
    ∧ List.Chain' (fun a b : QueuedMsg × ℚ => a.2 ≤ b.2)
        (deliverAll latency queue avail) := by
  refine ⟨deliverAll_map_fst latency queue avail, ?_,
    deliverAll_index latency queue avail,
    deliverAll_chain latency hL queue avail⟩
  intro recvNid
  rw [deliverAll_map_fst latency queue avail]

theorem C8_latency_witness :
    (0 : ℚ) ≤ 2
    ∧ (((deliverAll 2 [(⟨1, [], 0⟩, 0), (⟨2, [], 0⟩, 0)] 0).map Prod.fst
        = ([(⟨1, [], 0⟩, 0), (⟨2, [], 0⟩, 0)] :
            List (QueuedMsg × ℚ)).map Prod.fst)
      ∧ (∀ (recvNid : ℕ),
          ((deliverAll 2 [(⟨1, [], 0⟩, 0), (⟨2, [], 0⟩, 0)] 0).map
              Prod.fst).filter (fun m => m.runner_nid == recvNid)
            = (([(⟨1, [], 0⟩, 0), (⟨2, [], 0⟩, 0)] :
                List (QueuedMsg × ℚ)).map Prod.fst).filter
                (fun m => m.runner_nid == recvNid))
      ∧ (∀ (k : ℕ) (msg : QueuedMsg) (te : ℚ),
          ([(⟨1, [], 0⟩, 0), (⟨2, [], 0⟩, 0)] :
            List (QueuedMsg × ℚ))[k]? = some (msg, te) →
          ∃ tp : ℚ,
            (deliverAll 2 [(⟨1, [], 0⟩, 0), (⟨2, [], 0⟩, 0)] 0)[k]?
              = some (msg, tp) ∧ te + 2 ≤ tp)
      ∧ List.Chain' (fun a b : QueuedMsg × ℚ => a.2 ≤ b.2)
          (deliverAll 2 [(⟨1, [], 0⟩, 0), (⟨2, [], 0⟩, 0)] 0)) :=
  ⟨by decide,
   C8_latency_fifo 2 [(⟨1, [], 0⟩, 0), (⟨2, [], 0⟩, 0)] 0 (by decide)⟩

theorem runRouting_flag_true (start_time : ℚ) :
    ∀ times : List ℚ,
      runRouting start_time times true
        = (List.replicate times.length false, true) := by
  intro times
  induction times with
  | nil => rfl
  | cons t rest ih =>
    simp [runRouting, routingTick, should_send_routing, ih,
      List.replicate_succ]

theorem runRouting_length (start_time : ℚ) :
    ∀ (times : List ℚ) (st : Bool),
      (runRouting start_time times st).1.length = times.length := by
  intro times
  induction times with
  | nil => intro st; rfl
  | cons t rest ih =>
    intro st
    simp [runRouting, ih]

theorem count_true_replicate_false :
    ∀ n : ℕ, (List.replicate n false).count true = 0 := by
  intro n
  induction n with
  | zero => rfl
  | succ n ih => simp [List.replicate_succ, List.count_cons, ih]

theorem replicate_false_getElem? :
    ∀ (n m : ℕ) (fb : Bool),
      (List.replicate n false)[m]? = some fb → fb = false := by
  intro n m fb h
  have hmem : fb ∈ List.replicate n false := by
    exact List.getElem?_mem h
  exact List.eq_of_mem_replicate hmem

theorem runRouting_fires (start_time : ℚ) :
    ∀ (times : List ℚ) (k : ℕ) (tk : ℚ),
      times[k]? = some tk → start_time ≤ tk →
      (∀ m : ℕ, m < k → ∀ t' : ℚ, times[m]? = some t' →
        t' < start_time) →
      ((runRouting start_time times false).1.count true = 1)
      ∧ (∀ (m : ℕ) (fb : Bool),
          (runRouting start_time times false).1[m]? = some fb →
          (fb = true ↔ m = k))
      ∧ (runRouting start_time times false).2 = true := by
  intro times
  induction times with
  | nil => intro k tk hk _ _; simp at hk
  | cons t rest ih =>
    intro k tk hk hge hbefore
    match k with
    | 0 =>
      rw [List.getElem?_cons_zero, Option.some_inj] at hk
      subst hk
      have hfire : routingTick false start_time t = (true, true) := by
        simp [routingTick, should_send_routing, hge]
      have hrun : runRouting start_time (t :: rest) false
          = (true :: List.replicate rest.length false, true) := by
        simp only [runRouting, hfire]
        rw [runRouting_flag_true]
      rw [hrun]
      refine ⟨?_, ?_, rfl⟩
      · simp [List.count_cons, count_true_replicate_false]
      · intro m fb hm
        match m with
        | 0 =>
          rw [List.getElem?_cons_zero, Option.some_inj] at hm
          simp [← hm]
        | m + 1 =>
          rw [List.getElem?_cons_succ] at hm
          have := replicate_false_getElem? rest.length m fb hm
          simp [this]
    | k + 1 =>
      rw [List.getElem?_cons_succ] at hk
      have hnof : t < start_time :=
        hbefore 0 (Nat.succ_pos k) t (by rw [List.getElem?_cons_zero])
      have hfire : routingTick false start_time t = (false, false) := by
        simp [routingTick, should_send_routing, not_le.mpr hnof]
      have hbefore' : ∀ m : ℕ, m < k → ∀ t' : ℚ,
          rest[m]? = some t' → t' < start_time := by
        intro m hm t' ht'
        exact hbefore (m + 1) (Nat.succ_lt_succ hm) t'
          (by rw [List.getElem?_cons_succ]; exact ht')
      rcases ih k tk hk hge hbefore' with ⟨hcount, hidx, hflag⟩
      have hrun : runRouting start_time (t :: rest) false
          = (false :: (runRouting start_time rest false).1,
             (runRouting start_time rest false).2) := by
        simp only [runRouting, hfire]
      rw [hrun]
      refine ⟨?_, ?_, hflag⟩
      · simp [List.count_cons, hcount]
      · intro m fb hm
        match m with
        | 0 =>
          rw [List.getElem?_cons_zero, Option.some_inj] at hm
          simp [← hm]
        | m + 1 =>
          rw [List.getElem?_cons_succ] at hm
          rw [hidx m fb hm]
          exact ⟨fun h => by rw [h], fun h => Nat.succ_inj.mp h⟩

/-- C9: starting from `routing_started = False` (set by
`ApolloRunner.initialize`), if tick `k` is the first scenario-clock
tick whose simulated time reaches the agent's start threshold, then
the start-of-routing event fires at tick `k` and at no other tick —
exactly once per trial — and the per-agent triggered flag, set when
the event fires and checked before firing, ends `True`. -/
theorem C9_routing_fires_once (start_time : ℚ) (times : List ℚ)
    (k : ℕ) (tk : ℚ) (hk : times[k]? = some tk)
    (hge : start_time ≤ tk)
    (hbefore : ∀ m : ℕ, m < k → ∀ t' : ℚ, times[m]? = some t' →
      t' < start_time) :
    ((runRouting start_time times false).1.count true = 1)
    ∧ (∀ (m : ℕ) (fb : Bool),
        (runRouting start_time times false).1[m]? = some fb →
        (fb = true ↔ m = k))
    ∧ (runRouting start_time times false).1.length = times.length
    ∧ (runRouting start_time times false).2 = true := by
  rcases runRouting_fires start_time times k tk hk hge hbefore with
    ⟨h1, h2, h3⟩
  exact ⟨h1, h2, runRouting_length start_time times false, h3⟩

theorem C9_routing_witness :
    (([0, 1, 2, 3] : List ℚ)[2]? = some 2
      ∧ (2 : ℚ) ≤ 2)
    ∧ (((runRouting 2 [0, 1, 2, 3] false).1.count true = 1)
      ∧ (∀ (m : ℕ) (fb : Bool),
          (runRouting 2 [0, 1, 2, 3] false).1[m]?
            = some fb → (fb = true ↔ m = 2))
      ∧ (runRouting 2 [0, 1, 2, 3] false).1.length
          = ([0, 1, 2, 3] : List ℚ).length
      ∧ (runRouting 2 [0, 1, 2, 3] false).2 = true) :=
  ⟨⟨rfl, by norm_num⟩,
   C9_routing_fires_once 2 [0, 1, 2, 3] 2 2 rfl (by norm_num)
     (by
       intro m hm t' ht'
       interval_cases m
       · rw [List.getElem?_cons_zero, Option.some_inj] at ht'
         rw [← ht']
         norm_num
       · rw [List.getElem?_cons_succ, List.getElem?_cons_zero,
           Option.some_inj] at ht'
         rw [← ht']
         norm_num)⟩

theorem dropPass_eq (p : ℚ) (u : ℕ → ℚ) (recvIdx : ℕ) :
    ∀ (senders : List (ℕ × Runner)) (c : ℕ),
      dropPass p u recvIdx senders c
        = ((((senders.filter (fun q => q.1 ≠ recvIdx)).enumFrom c).filter
              (fun q => !decide (u q.1 < p))).map (fun q => q.2.2.nid),
           c + (senders.filter (fun q => q.1 ≠ recvIdx)).length) := by
  intro senders
  induction senders with
  | nil => intro c; rfl
  | cons a rest ih =>
    intro c
    rcases a with ⟨si, s⟩
    by_cases h1 : si = recvIdx
    · show dropPass p u recvIdx ((si, s) :: rest) c = _
      rw [show dropPass p u recvIdx ((si, s) :: rest) c
          = dropPass p u recvIdx rest c from by
        simp [dropPass, h1]]
      rw [ih c]
      simp [List.filter_cons, h1]
    · rw [show dropPass p u recvIdx ((si, s) :: rest) c
          = ((if u c < p then (dropPass p u recvIdx rest (c + 1)).1
              else s.nid :: (dropPass p u recvIdx rest (c + 1)).1),
             (dropPass p u recvIdx rest (c + 1)).2) from by
        simp [dropPass, h1]]
      rw [ih (c + 1)]
      by_cases h2 : u c < p
      · simp [List.filter_cons, h1, h2, List.enumFrom_cons]
        omega
      · simp [List.filter_cons, h1, h2, List.enumFrom_cons]
        omega

theorem enumFrom_map_snd_comp {α β : Type} (f : α → β) :
    ∀ (l : List α) (n : ℕ),
      (List.enumFrom n l).map (fun q => f q.2) = l.map f := by
  intro l
  induction l with
  | nil => intro n; rfl
  | cons a t ih => intro n; simp only [List.enumFrom_cons, List.map_cons,
      ih]

theorem enumFrom_filterMap_snd {α β : Type} (g : α → Option β) :
    ∀ (l : List α) (n : ℕ),
      (List.enumFrom n l).filterMap (fun q => g q.2) = l.filterMap g := by
  intro l
  induction l with
  | nil => intro n; rfl
  | cons a t ih =>
    intro n
    rw [List.enumFrom_cons]
    match hg : g a with
    | none =>
      rw [List.filterMap_cons_none (by simpa using hg),
        List.filterMap_cons_none hg, ih]
    | some b =>
      rw [List.filterMap_cons_some (by simpa using hg),
        List.filterMap_cons_some hg, ih]

theorem enumFrom_filter_gt {α : Type} :
    ∀ (l : List α) (m j : ℕ), j < m →
      (List.enumFrom m l).filter (fun q => q.1 ≠ j)
        = List.enumFrom m l := by
  intro l
  induction l with
  | nil => intro m j _; rfl
  | cons a t ih =>
    intro m j hj
    have hmj : m ≠ j := Nat.ne_of_gt hj
    rw [List.enumFrom_cons, List.filter_cons, if_pos (by simp [hmj]),
      ih (m + 1) j (Nat.lt_succ_of_lt hj)]

theorem dropPass_p_zero (u : ℕ → ℚ) (hu : ∀ n, 0 ≤ u n) (recvIdx : ℕ)
    (senders : List (ℕ × Runner)) (c : ℕ) :
    (dropPass 0 u recvIdx senders c).1
      = (senders.filter (fun q => q.1 ≠ recvIdx)).map
          (fun q => q.2.nid) := by
  have h : (dropPass 0 u recvIdx senders c).1
      = (((senders.filter (fun q => q.1 ≠ recvIdx)).enumFrom c).filter
          (fun q => !decide (u q.1 < 0))).map (fun q => q.2.2.nid) := by
    rw [dropPass_eq]
  rw [h, List.filter_eq_self.mpr (by
    intro q _
    simp [not_lt.mpr (hu q.1)])]
  exact enumFrom_map_snd_comp (fun x : ℕ × Runner => x.2.nid)
    (senders.filter (fun q => q.1 ≠ recvIdx)) c

theorem dropPass_p_one (u : ℕ → ℚ) (hu : ∀ n, u n < 1) (recvIdx : ℕ)
    (senders : List (ℕ × Runner)) (c : ℕ) :
    (dropPass 1 u recvIdx senders c).1 = [] := by
  have h : (dropPass 1 u recvIdx senders c).1
      = (((senders.filter (fun q => q.1 ≠ recvIdx)).enumFrom c).filter
          (fun q => !decide (u q.1 < 1))).map (fun q => q.2.2.nid) := by
    rw [dropPass_eq]
  rw [h]
  rw [show (((senders.filter (fun q => q.1 ≠ recvIdx)).enumFrom c).filter
      (fun q => !decide (u q.1 < 1))) = [] from by
    apply List.filter_eq_nil_iff.mpr
    intro q _
    simp [hu q.1]]
  rfl

theorem receiveDict_eq (p : ℚ) (u : ℕ → ℚ)
    (senders : List (ℕ × Runner)) :
    ∀ (rs : List (ℕ × Runner)) (c : ℕ) (acc : List (ℕ × List ℕ)),
      (∀ q ∈ rs, dmem acc q.2.nid = false) →
      (rs.map (fun q => q.2.nid)).Nodup →
      receiveDict p u senders rs c acc
        = acc ++ receiveListsPos p u senders rs c := by
  intro rs
  induction rs with
  | nil => intro c acc _ _; simp [receiveDict, receiveListsPos]
  | cons q rest ih =>
    intro c acc hacc hnd
    rcases q with ⟨ri, r⟩
    simp only [List.map_cons, List.nodup_cons] at hnd
    have hmr : dmem acc r.nid = false :=
      hacc (ri, r) (List.mem_cons_self _ _)
    rw [show receiveDict p u senders ((ri, r) :: rest) c acc
        = receiveDict p u senders rest (dropPass p u ri senders c).2
            (dinsert acc r.nid (dropPass p u ri senders c).1) from rfl]
    rw [dinsert_of_not_mem acc r.nid _ hmr]
    rw [ih _ _ (by
        intro x hx
        have hxnid : r.nid ≠ x.2.nid := fun hEq =>
          hnd.1 (hEq ▸ List.mem_map_of_mem (fun q => q.2.nid) hx)
        have hxm : dmem acc x.2.nid = false :=
          hacc x (List.mem_cons_of_mem _ hx)
        rw [dmem_append, hxm, Bool.false_or]
        simp [dmem, hxnid])
      hnd.2]
    rw [show receiveListsPos p u senders ((ri, r) :: rest) c
        = (r.nid, (dropPass p u ri senders c).1)
            :: receiveListsPos p u senders rest
              (dropPass p u ri senders c).2 from rfl]
    rw [List.append_assoc]
    rfl

theorem dget?_pos_form {γ : Type} (g : ℕ × Runner → γ) :
    ∀ (rs : List (ℕ × Runner)),
      (rs.map (fun q => q.2.nid)).Nodup →
      ∀ q0 ∈ rs,
        dget? (rs.map (fun q => (q.2.nid, g q))) q0.2.nid
          = some (g q0) := by
  intro rs
  induction rs with
  | nil => intro _ q0 h; simp at h
  | cons q rest ih =>
    intro hnd q0 hq0
    simp only [List.map_cons, List.nodup_cons] at hnd
    rcases List.mem_cons.mp hq0 with h | h
    · subst h
      simp [dget?, List.find?_cons]
    · have hne : q.2.nid ≠ q0.2.nid := fun hEq =>
        hnd.1 (hEq ▸ List.mem_map_of_mem (fun q => q.2.nid) h)
      have hb : (((q.2.nid, g q) : ℕ × γ).1 == q0.2.nid) = false := by
        simp [hne]
      simp only [List.map_cons, dget?, List.find?_cons, hb]
      exact ih hnd.2 q0 h

theorem dmem_locationsSimple_false (rest : List Runner) (k : ℕ)
    (h : k ∉ rest.map Runner.nid) :
    dmem (locationsSimple rest) k = false := by
  apply List.any_eq_false.mpr
  intro p hp
  rcases List.mem_filterMap.mp hp with ⟨x, hx, hxe⟩
  match hax : authLoc x with
  | none => rw [hax] at hxe; simp at hxe
  | some l =>
    rw [hax] at hxe
    simp only [Option.map_some', Option.some_inj] at hxe
    rw [← hxe]
    intro hEq
    have hEq2 : x.nid = k := by simpa using hEq
    exact h (hEq2 ▸ List.mem_map_of_mem Runner.nid hx)

theorem dget?_obsSimple (genPoly : Point3D → ℚ → List Point3D) :
    ∀ (rs : List Runner),
      (rs.map Runner.nid).Nodup →
      ∀ x ∈ rs,
        dget? ((locationsSimple rs).map
            (fun p => (p.1, localization_to_obstacle genPoly p.1 p.2)))
            x.nid
          = (authLoc x).map
              (fun l => localization_to_obstacle genPoly x.nid l) := by
  intro rs
  induction rs with
  | nil => intro _ x hx; simp at hx
  | cons r rest ih =>
    intro hnd x hx
    simp only [List.map_cons, List.nodup_cons] at hnd
    rcases List.mem_cons.mp hx with h | h
    · subst h
      match hr : authLoc x with
      | none =>
        rw [show locationsSimple (x :: rest) = locationsSimple rest from
          by simp [locationsSimple, hr]]
        rw [Option.map_none']
        apply dget?_eq_none_of_not_mem
        rw [dmem_map_fst (fun p =>
          localization_to_obstacle genPoly p.1 p.2)]
        exact dmem_locationsSimple_false rest x.nid hnd.1
      | some l =>
        rw [show locationsSimple (x :: rest)
            = (x.nid, l) :: locationsSimple rest from
          by simp [locationsSimple, hr]]
        simp [dget?, List.find?_cons]
    · have hne : r.nid ≠ x.nid := fun hEq =>
        hnd.1 (hEq ▸ List.mem_map_of_mem Runner.nid h)
      match hr : authLoc r with
      | none =>
        rw [show locationsSimple (r :: rest) = locationsSimple rest from
          by simp [locationsSimple, hr]]
        exact ih hnd.2 x h
      | some l =>
        rw [show locationsSimple (r :: rest)
            = (r.nid, l) :: locationsSimple rest from
          by simp [locationsSimple, hr]]
        have hb : (((r.nid, localization_to_obstacle genPoly r.nid l) :
            ℕ × PerceptionObstacle).1 == x.nid) = false := by
          simp [hne]
        simp only [List.map_cons, dget?, List.find?_cons, hb]
        exact ih hnd.2 x h

theorem dget?_obsMap_eq (genPoly : Point3D → ℚ → List Point3D)
    (runners : List Runner) (hnd : (runners.map Runner.nid).Nodup) :
    ∀ x ∈ runners,
      dget? (obsMap genPoly runners) x.nid
        = (authLoc x).map
            (fun l => localization_to_obstacle genPoly x.nid l) := by
  intro x hx
  unfold obsMap
  rw [locations_eq runners hnd]
  exact dget?_obsSimple genPoly runners hnd x hx

theorem enum_filter_recv (obs : List (ℕ × PerceptionObstacle)) :
    ∀ (rs : List Runner) (n k : ℕ) (r : Runner),
      (rs.map Runner.nid).Nodup →
      (k, r) ∈ List.enumFrom n rs →
      ((List.enumFrom n rs).filter (fun q => q.1 ≠ k)).filterMap
          (fun q => dget? obs q.2.nid)
        = rs.filterMap (fun x =>
            if x.nid = r.nid then none else dget? obs x.nid) := by
  intro rs
  induction rs with
  | nil => intro n k r _ hmem; simp [List.enumFrom] at hmem
  | cons x rest ih =>
    intro n k r hnd hmem
    simp only [List.map_cons, List.nodup_cons] at hnd
    rw [List.enumFrom_cons] at hmem
    rw [List.enumFrom_cons]
    rcases List.mem_cons.mp hmem with h | h
    · rw [Prod.mk.injEq] at h
      obtain ⟨hk, hr⟩ := h
      subst hk
      subst hr
      rw [List.filter_cons, if_neg (by simp)]
      rw [enumFrom_filter_gt rest (k + 1) k (Nat.lt_succ_self k)]
      rw [enumFrom_filterMap_snd (fun y : Runner => dget? obs y.nid)
        rest (k + 1)]
      rw [show List.filterMap (fun y : Runner =>
          if y.nid = r.nid then none else dget? obs y.nid) (r :: rest)
        = List.filterMap (fun y : Runner =>
            if y.nid = r.nid then none else dget? obs y.nid) rest
        from List.filterMap_cons_none (by simp)]
      apply List.filterMap_congr
      intro y hy
      have hne : ¬ y.nid = r.nid := fun hEq =>
        hnd.1 (hEq ▸ List.mem_map_of_mem Runner.nid hy)
      rw [if_neg hne]
    · rcases List.mem_enumFrom h with ⟨hk1, hk2, hk3⟩
      have hlen : k - (n + 1) < rest.length := by omega
      have hrrest : r ∈ rest := by
        rw [hk3]
        exact List.getElem_mem hlen
      have hxr : ¬ x.nid = r.nid := fun hEq =>
        hnd.1 (hEq ▸ List.mem_map_of_mem Runner.nid hrrest)
      rw [List.filter_cons, if_pos (by
        simp only [ne_eq, decide_eq_true_eq]
        omega)]
      match hobs : dget? obs x.nid with
      | none =>
        rw [show List.filterMap (fun q : ℕ × Runner => dget? obs q.2.nid)
            ((n, x) :: (List.enumFrom (n + 1) rest).filter
              (fun q => q.1 ≠ k))
          = List.filterMap (fun q : ℕ × Runner => dget? obs q.2.nid)
              ((List.enumFrom (n + 1) rest).filter (fun q => q.1 ≠ k))
          from List.filterMap_cons_none (by simpa using hobs)]
        rw [show List.filterMap (fun y : Runner =>
            if y.nid = r.nid then none else dget? obs y.nid) (x :: rest)
          = List.filterMap (fun y : Runner =>
              if y.nid = r.nid then none else dget? obs y.nid) rest
          from List.filterMap_cons_none (by simp [hxr, hobs])]
        exact ih (n + 1) k r hnd.2 h
      | some o =>
        rw [show List.filterMap (fun q : ℕ × Runner => dget? obs q.2.nid)
            ((n, x) :: (List.enumFrom (n + 1) rest).filter
              (fun q => q.1 ≠ k))
          = o :: List.filterMap (fun q : ℕ × Runner => dget? obs q.2.nid)
              ((List.enumFrom (n + 1) rest).filter (fun q => q.1 ≠ k))
          from List.filterMap_cons_some (by simpa using hobs)]
        rw [show List.filterMap (fun y : Runner =>
            if y.nid = r.nid then none else dget? obs y.nid) (x :: rest)
          = o :: List.filterMap (fun y : Runner =>
              if y.nid = r.nid then none else dget? obs y.nid) rest
          from List.filterMap_cons_some (by simp [hxr, hobs])]
        rw [ih (n + 1) k r hnd.2 h]

theorem receiveListsPos_map (p : ℚ) (u : ℕ → ℚ)
    (senders : List (ℕ × Runner)) (f : ℕ → List ℕ)
    (hall : ∀ (ri c : ℕ), (dropPass p u ri senders c).1 = f ri) :
    ∀ (rs : List (ℕ × Runner)) (c : ℕ),
      receiveListsPos p u senders rs c
        = rs.map (fun q => (q.2.nid, f q.1)) := by
  intro rs
  induction rs with
  | nil => intro c; rfl
  | cons q rest ih =>
    intro c
    rcases q with ⟨ri, r⟩
    rw [show receiveListsPos p u senders ((ri, r) :: rest) c
        = (r.nid, (dropPass p u ri senders c).1)
            :: receiveListsPos p u senders rest
              (dropPass p u ri senders c).2 from rfl,
      hall ri c, ih _]
    rfl

/-- C4: per tick the Bernoulli-drop broker makes one independent draw
per ordered (receiver, sender) pair with distinct positions, in
program order, and omits the sender exactly when the draw is `< p`
(the closed form of the inner pass); pedestrian obstacles are never
dropped (they are a suffix of every snapshot); with `p = 0` and
uniform draws in `[0, 1)` every receiver's snapshot equals the
Identity broker's; with `p = 1` every receiver's agent-derived list is
empty, leaving only pedestrians. -/
theorem C4_bernoulli_drop (genPoly : Point3D → ℚ → List Point3D)
    (u : ℕ → ℚ) (runners : List Runner) (pds : List PerceptionObstacle)
    (hnd : (runners.map Runner.nid).Nodup) :
    (∀ (p : ℚ) (recvIdx : ℕ) (senders : List (ℕ × Runner)) (c : ℕ),
        dropPass p u recvIdx senders c
          = ((((senders.filter (fun q => q.1 ≠ recvIdx)).enumFrom
                c).filter (fun q => !decide (u q.1 < p))).map
                (fun q => q.2.2.nid),
             c + (senders.filter (fun q => q.1 ≠ recvIdx)).length))
    ∧ (∀ (p : ℚ) (recvNid : ℕ),
        pds <:+ bernoulliSnapshot genPoly p u runners pds recvNid)
    ∧ ((∀ n, 0 ≤ u n) → ∀ (k : ℕ) (r : Runner),
        (k, r) ∈ runners.enum →
        bernoulliSnapshot genPoly 0 u runners pds r.nid
          = identitySnapshot genPoly runners pds r.nid)
    ∧ ((∀ n, u n < 1) → ∀ (k : ℕ) (r : Runner),
        (k, r) ∈ runners.enum →
        bernoulliSnapshot genPoly 1 u runners pds r.nid = pds) := by
  have hnd2 : (runners.enum.map (fun q => q.2.nid)).Nodup := by
    rw [show runners.enum.map (fun q => q.2.nid)
        = runners.map Runner.nid from
      enumFrom_map_snd_comp Runner.nid runners 0]
    exact hnd
  have hrl : ∀ p : ℚ,
      receiveDict p u runners.enum runners.enum 0 []
        = receiveListsPos p u runners.enum runners.enum 0 := by
    intro p
    have h := receiveDict_eq p u runners.enum runners.enum 0 []
      (by intro q _; rfl) hnd2
    simpa using h
  refine ⟨fun p recvIdx senders c => dropPass_eq p u recvIdx senders c,
    ?_, ?_, ?_⟩
  · intro p recvNid
    exact List.suffix_append _ pds
  · intro hu k r hkr
    have hpos : receiveListsPos 0 u runners.enum runners.enum 0
        = runners.enum.map (fun q => (q.2.nid,
            (runners.enum.filter (fun q2 => q2.1 ≠ q.1)).map
              (fun q2 => q2.2.nid))) :=
      receiveListsPos_map 0 u runners.enum
        (fun ri => (runners.enum.filter (fun q2 => q2.1 ≠ ri)).map
          (fun q2 => q2.2.nid))
        (fun ri c => dropPass_p_zero u hu ri runners.enum c)
        runners.enum 0
    have hlook : dget? (receiveDict 0 u runners.enum runners.enum 0 [])
        r.nid = some ((runners.enum.filter (fun q2 => q2.1 ≠ k)).map
          (fun q2 => q2.2.nid)) := by
      rw [hrl 0, hpos]
      have h := dget?_pos_form (fun q : ℕ × Runner =>
        (runners.enum.filter (fun q2 => q2.1 ≠ q.1)).map
          (fun q2 => q2.2.nid)) runners.enum hnd2 (k, r) hkr
      simpa using h
    unfold bernoulliSnapshot
    rw [hlook, Option.getD_some, List.filterMap_map]
    rw [show ((runners.enum.filter (fun q2 => q2.1 ≠ k)).filterMap
        ((fun x => dget? (obsMap genPoly runners) x)
          ∘ (fun q2 : ℕ × Runner => q2.2.nid)))
      = runners.filterMap (fun x =>
          if x.nid = r.nid then none
          else dget? (obsMap genPoly runners) x.nid)
      from enum_filter_recv (obsMap genPoly runners) runners 0 k r hnd
        hkr]
    have hspec : runners.filterMap (fun x =>
        if x.nid = r.nid then none
        else dget? (obsMap genPoly runners) x.nid)
        = specSnapshotAgents genPoly runners r.nid := by
      unfold specSnapshotAgents
      apply List.filterMap_congr
      intro x hx
      by_cases hEq : x.nid = r.nid
      · rw [if_pos hEq, if_pos hEq]
      · rw [if_neg hEq, if_neg hEq,
          dget?_obsMap_eq genPoly runners hnd x hx]
    rw [hspec]
    unfold identitySnapshot
    rw [identityAgents_eq_spec genPoly runners r.nid hnd]
  · intro hu k r hkr
    have hpos : receiveListsPos 1 u runners.enum runners.enum 0
        = runners.enum.map (fun q => (q.2.nid, ([] : List ℕ))) :=
      receiveListsPos_map 1 u runners.enum (fun _ => [])
        (fun ri c => dropPass_p_one u hu ri runners.enum c)
        runners.enum 0
    have hlook : dget? (receiveDict 1 u runners.enum runners.enum 0 [])
        r.nid = some ([] : List ℕ) := by
      rw [hrl 1, hpos]
      have h := dget?_pos_form (fun _ : ℕ × Runner => ([] : List ℕ))
        runners.enum hnd2 (k, r) hkr
      simpa using h
    unfold bernoulliSnapshot
    rw [hlook, Option.getD_some]
    rfl

theorem C4_bernoulli_witness :
    ((demoRunners.map Runner.nid).Nodup
      ∧ (0, demoR1) ∈ demoRunners.enum)
    ∧ ((∀ (p : ℚ) (recvIdx : ℕ) (senders : List (ℕ × Runner)) (c : ℕ),
        dropPass p (fun _ => 0) recvIdx senders c
          = ((((senders.filter (fun q => q.1 ≠ recvIdx)).enumFrom
                c).filter (fun q => !decide ((0 : ℚ) < p))).map
                (fun q => q.2.2.nid),
             c + (senders.filter (fun q => q.1 ≠ recvIdx)).length))
      ∧ (∀ (p : ℚ) (recvNid : ℕ),
          [demoObs] <:+ bernoulliSnapshot demoPoly p (fun _ => 0)
            demoRunners [demoObs] recvNid)
      ∧ ((∀ n : ℕ, (0 : ℚ) ≤ 0) → ∀ (k : ℕ) (r : Runner),
          (k, r) ∈ demoRunners.enum →
          bernoulliSnapshot demoPoly 0 (fun _ => 0) demoRunners
              [demoObs] r.nid
            = identitySnapshot demoPoly demoRunners [demoObs] r.nid)
      ∧ ((∀ n : ℕ, (0 : ℚ) < 1) → ∀ (k : ℕ) (r : Runner),
          (k, r) ∈ demoRunners.enum →
          bernoulliSnapshot demoPoly 1 (fun _ => 0) demoRunners
              [demoObs] r.nid = [demoObs])) :=
  ⟨⟨by decide, by decide⟩,
   C4_bernoulli_drop demoPoly (fun _ => 0) demoRunners [demoObs]
     (by decide)⟩

end MetaV2V
